import Mathlib

set_option autoImplicit false

/-!
Verification of the Zorba process module (`src/process-2.xq.src/process.cpp`)
against its natural-language specification.

The file shallowly embeds the parts of the C++ source the claims are about:

* the POSIX wait-status macros and the `exit_code` computation of
  `ExecFunction::evaluate` (lines 533-552);
* the shell command-line construction (lines 419-438);
* the POSIX launch path `exec_helper` / `execvpe` and the Windows launch
  path `run_process` / `create_child_process`;
* the POSIX drain loops (lines 495-509) and the Windows drain
  `read_child_output` (lines 120-154);
* the file-descriptor bookkeeping of `exec_helper` (lines 297-366);
* a small bounded-buffer simulator of the child/parent pipe interaction,
  used to analyse the drain ordering of lines 495-509.

Machine integers are modelled as `Nat`/`Int` with explicit reductions
modulo `2 ^ w` where the C code relies on wrap-around.
-/

namespace ProcessModule

/-! ## POSIX wait-status macros and the exit-code normalisation

The source reads the raw `int stat` filled in by `waitpid` through the
glibc macros `WIFEXITED`, `WEXITSTATUS`, `WIFSIGNALED`, `WTERMSIG`,
`WIFSTOPPED`, `WSTOPSIG`.  We model the raw status as a `Nat` (the
non-negative bit pattern) and transcribe the glibc definitions. -/

/-- Twos-complement (sign-extended) reading of a byte, the C `(signed char)` cast. -/
def signedChar (n : Nat) : Int :=
  if n % 256 < 128 then (n % 256 : Int) else (n % 256 : Int) - 256

/-- Macro `WIFEXITED(stat)` : `(stat & 0x7f) == 0`. -/
def wifexited (stat : Nat) : Bool :=
  stat % 128 == 0

/-- Macro `WEXITSTATUS(stat)` : `(stat >> 8) & 0xff`. -/
def wexitstatus (stat : Nat) : Nat :=
  (stat / 256) % 256

/-- Arithmetic right shift by one of a byte bit-pattern: the value bits
move down one position and the sign bit is replicated, exactly what the
C `>> 1` does to a `signed char` on the target compilers. -/
def asrByte (b : Nat) : Nat :=
  b % 256 / 2 + b % 256 / 128 * 128

/-- Macro `WIFSIGNALED(stat)` : `((signed char)(((stat & 0x7f) + 1)) >> 1) > 0`. -/
def wifsignaled (stat : Nat) : Bool :=
  decide (0 < signedChar (asrByte (stat % 128 + 1)))

/-- Macro `WTERMSIG(stat)` : `stat & 0x7f`. -/
def wtermsig (stat : Nat) : Nat :=
  stat % 128

/-- Macro `WIFSTOPPED(stat)` : `(stat & 0xff) == 0x7f`. -/
def wifstopped (stat : Nat) : Bool :=
  stat % 256 == 127

/-- Macro `WSTOPSIG(stat)` : `(stat >> 8) & 0xff`. -/
def wstopsig (stat : Nat) : Nat :=
  (stat / 256) % 256

/-- The `exit_code` computation of `ExecFunction::evaluate`,
`process.cpp` lines 533-552: `WIFEXITED` branch, then `WIFSIGNALED`,
then `WIFSTOPPED`, else `255`. -/
def encode_stat (stat : Nat) : Nat :=
  if wifexited stat then wexitstatus stat
  else if wifsignaled stat then 128 + wtermsig stat
  else if wifstopped stat then 128 + wstopsig stat
  else 255

/-- The abstract termination status of the data model of the specification. -/
inductive TerminationStatus where
  | exited (code : Nat)
  | signaled (signal : Nat)
  | stopped (signal : Nat)
  | unknown
deriving DecidableEq, Repr

/-- Modelled from the spec: the `ResultEncoder` contract of section 4.4
(`Exited(code) -> code`, `Signaled(s) -> 128 + s`, `Stopped(s) -> 128 + s`,
`Unknown -> 255`).  Used only to compare the computation in the code against
the specified mapping. -/
def spec_encode : TerminationStatus → Nat
  | .exited c => c
  | .signaled s => 128 + s
  | .stopped s => 128 + s
  | .unknown => 255

/-- The classification the `if` chain of the source performs on the raw wait
status, read off abstractly: which of the four branch families the
status falls into, with the payload each branch extracts. -/
def classify (stat : Nat) : TerminationStatus :=
  if wifexited stat then .exited (wexitstatus stat)
  else if wifsignaled stat then .signaled (wtermsig stat)
  else if wifstopped stat then .stopped (wstopsig stat)
  else .unknown

/-- Canonical raw status of a normal exit with code `c` (`c << 8`). -/
def exitStat (c : Nat) : Nat := 256 * c

/-- Canonical raw status of termination by signal `s`. -/
def sigStat (s : Nat) : Nat := s

/-- Canonical raw status of a stop by signal `s` (`0x7f | (s << 8)`). -/
def stopStat (s : Nat) : Nat := 127 + 256 * s

theorem wifsignaled_true (s : Nat) (h1 : 1 ≤ s) (h2 : s ≤ 126) :
    wifsignaled s = true := by
  have hm : s % 128 = s := Nat.mod_eq_of_lt (by omega)
  have ha : asrByte (s % 128 + 1) = (s + 1) / 2 := by
    simp only [asrByte, hm]
    omega
  have hb : (s + 1) / 2 % 256 < 128 := by omega
  simp only [wifsignaled, ha, signedChar, if_pos hb, decide_eq_true_eq]
  omega

theorem wifsignaled_of_low127 (u : Nat) (h : u % 128 = 127) :
    wifsignaled u = false := by
  simp only [wifsignaled, h]
  decide

theorem encode_exitStat (c : Nat) (hc : c ≤ 255) :
    encode_stat (exitStat c) = c := by
  show encode_stat (256 * c) = c
  have hex : wifexited (256 * c) = true := by
    simp only [wifexited, beq_iff_eq]
    omega
  unfold encode_stat
  rw [if_pos hex]
  unfold wexitstatus
  omega

theorem encode_sigStat (s : Nat) (hs1 : 1 ≤ s) (hs2 : s ≤ 126) :
    encode_stat (sigStat s) = 128 + s := by
  show encode_stat s = 128 + s
  have hex : wifexited s = false := by
    simp only [wifexited, beq_eq_false_iff_ne, ne_eq]
    omega
  unfold encode_stat
  rw [if_neg (by simp [hex]), if_pos (wifsignaled_true s hs1 hs2)]
  unfold wtermsig
  omega

theorem encode_stopStat (t : Nat) (ht : t ≤ 255) :
    encode_stat (stopStat t) = 128 + t := by
  show encode_stat (127 + 256 * t) = 128 + t
  have hex : wifexited (127 + 256 * t) = false := by
    simp only [wifexited, beq_eq_false_iff_ne, ne_eq]
    omega
  have hsig : wifsignaled (127 + 256 * t) = false :=
    wifsignaled_of_low127 _ (by omega)
  have hstop : wifstopped (127 + 256 * t) = true := by
    simp only [wifstopped, beq_iff_eq]
    omega
  unfold encode_stat
  rw [if_neg (by simp [hex]), if_neg (by simp [hsig]), if_pos hstop]
  unfold wstopsig
  omega

theorem encode_unknown (u : Nat) (hu : u % 256 = 255) :
    encode_stat u = 255 := by
  have hex : wifexited u = false := by
    simp only [wifexited, beq_eq_false_iff_ne, ne_eq]
    omega
  have hsig : wifsignaled u = false :=
    wifsignaled_of_low127 _ (by omega)
  have hstop : wifstopped u = false := by
    simp only [wifstopped, beq_eq_false_iff_ne, ne_eq]
    omega
  unfold encode_stat
  rw [if_neg (by simp [hex]), if_neg (by simp [hsig]), if_neg (by simp [hstop])]

theorem encode_agrees_classify (stat : Nat) :
    encode_stat stat = spec_encode (classify stat) := by
  unfold encode_stat classify
  split
  · rfl
  · split
    · rfl
    · split <;> rfl

/-- Claim C1. For every termination status, the normalized exit code is
computed as: `Exited(c) ↦ c` unchanged, `Signaled(s) ↦ 128 + s`,
`Stopped(s) ↦ 128 + s`, and any other (`Unknown`) status maps to `255`;
moreover on every raw status the chain in the code agrees with the
specified `encode` applied to the classification of the status. -/
theorem encode_normalizes (c s t u : Nat) (hc : c ≤ 255)
    (hs1 : 1 ≤ s) (hs2 : s ≤ 126) (ht : t ≤ 255) (hu : u % 256 = 255) :
    encode_stat (exitStat c) = c ∧
    encode_stat (sigStat s) = 128 + s ∧
    encode_stat (stopStat t) = 128 + t ∧
    encode_stat u = 255 ∧
    (∀ stat : Nat, encode_stat stat = spec_encode (classify stat)) :=
  ⟨encode_exitStat c hc, encode_sigStat s hs1 hs2, encode_stopStat t ht,
    encode_unknown u hu, encode_agrees_classify⟩

/-- Concrete instantiation of `encode_normalizes` at exit code 7,
termination signal 9, stop signal 17 and the unknown status byte 255. -/
theorem encode_normalizes_witness :
    encode_stat (exitStat 7) = 7 ∧
    encode_stat (sigStat 9) = 128 + 9 ∧
    encode_stat (stopStat 17) = 128 + 17 ∧
    encode_stat 255 = 255 ∧
    (∀ stat : Nat, encode_stat stat = spec_encode (classify stat)) :=
  encode_normalizes 7 9 17 255 (by decide) (by decide) (by decide)
    (by decide) (by decide)

/-! ## Shell command-line construction

`ExecFunction::evaluate`, lines 425-435: the command is emitted wrapped
in double quotes; each argument is emitted after a space, wrapped in
double quotes iff `int(rfind('\\') + rfind('/')) >= 0`, where the two
`std::string::rfind` calls yield `npos = 2^64 - 1` when the character is
absent, the sum wraps modulo `2^64` (`size_t`), and the `int` cast
truncates to 32 bits, read as twos complement. -/

/-- Value of `std::string::npos` on an LP64 platform. -/
def npos : Nat := 2 ^ 64 - 1

/-- Method `std::string::rfind(char)`: index of the last occurrence of `c`,
`npos` when `c` does not occur. -/
def rfindChar : List Char → Char → Nat
  | [], _ => npos
  | a :: rest, c =>
      let r := rfindChar rest c
      if r = npos then (if a = c then 0 else npos) else r + 1

/-- Line 430: `pos = arg.rfind('\\') + arg.rfind('/')` in `size_t`
arithmetic. -/
def quotePos (arg : List Char) : Nat :=
  (rfindChar arg '\\' + rfindChar arg '/') % 2 ^ 64

/-- The C cast `int(pos)`: truncation to 32 bits, twos complement. -/
def intOfSizeT (n : Nat) : Int :=
  if n % 2 ^ 32 < 2 ^ 31 then (n % 2 ^ 32 : Int) else (n % 2 ^ 32 : Int) - 2 ^ 32

/-- Line 431: the argument is wrapped in quotes iff `int(pos) >= 0`. -/
def argQuoted (arg : List Char) : Bool :=
  decide (0 ≤ intOfSizeT (quotePos arg))

/-- The double-quote character the source emits. -/
def quoteChar : Char := '\"'

/-- Lines 431-434: how one argument is appended to the command line. -/
def renderArg (arg : List Char) : List Char :=
  if argQuoted arg then [' ', quoteChar] ++ arg ++ [quoteChar]
  else [' '] ++ arg

/-- Lines 425-435 (POSIX variant, without the Windows-only `cmd /C`
wrapper): quoted command followed by the rendered arguments. -/
def shellLine (cmd : List Char) (args : List (List Char)) : List Char :=
  [quoteChar] ++ cmd ++ [quoteChar] ++ (args.map renderArg).flatten

/-- Modelled from the spec: the quoting criterion of the claim, "the
value of the argument contains a path separator character (forward slash or
backslash)". -/
def spec_containsPathSeparator (arg : List Char) : Bool :=
  arg.any (fun ch => ch == '/' || ch == '\\')

theorem rfindChar_lt_length (s : List Char) (c : Char)
    (h : rfindChar s c ≠ npos) : rfindChar s c < s.length := by
  induction s with
  | nil => simp [rfindChar] at h
  | cons a rest ih =>
      simp only [rfindChar] at h ⊢
      by_cases hr : rfindChar rest c = npos
      · rw [if_pos hr] at h ⊢
        by_cases ha : a = c
        · rw [if_pos ha]
          simp
        · rw [if_neg ha] at h
          exact absurd rfl h
      · rw [if_neg hr] at h ⊢
        have := ih hr
        simp only [List.length_cons]
        omega

theorem rfindChar_eq_npos (s : List Char) (c : Char) (hlen : s.length < npos) :
    rfindChar s c = npos ↔ c ∉ s := by
  induction s with
  | nil => simp [rfindChar]
  | cons a rest ih =>
      have hlen2 : rest.length < npos := by
        simp only [List.length_cons] at hlen
        omega
      simp only [rfindChar]
      by_cases hr : rfindChar rest c = npos
      · have hrest : c ∉ rest := (ih hlen2).mp hr
        rw [if_pos hr]
        by_cases ha : a = c
        · rw [if_pos ha]
          constructor
          · intro h0
            exact absurd h0.symm (by simp [npos])
          · intro h
            exact absurd (by simp [ha]) h
        · rw [if_neg ha]
          simp only [List.mem_cons, not_or]
          constructor
          · intro _
            exact ⟨fun h => ha h.symm, hrest⟩
          · intro _
            trivial
      · have hlt := rfindChar_lt_length rest c hr
        have hrest : c ∈ rest := by
          by_contra h
          exact hr ((ih hlen2).mpr h)
        rw [if_neg hr]
        constructor
        · intro h1
          omega
        · intro h
          exact absurd (by simp [hrest]) h

theorem rfindChar_tail (s : List Char) (c : Char) (hlen : s.length < npos) :
    (1 ≤ rfindChar s c ∧ rfindChar s c ≠ npos) ↔ c ∈ s.drop 1 := by
  cases s with
  | nil =>
      simp only [rfindChar, List.drop_nil, List.not_mem_nil, iff_false, not_and]
      intro
      exact fun h => h rfl
  | cons a rest =>
      have hlen2 : rest.length < npos := by
        simp only [List.length_cons] at hlen
        omega
      simp only [rfindChar, List.drop_succ_cons, List.drop_zero]
      by_cases hr : rfindChar rest c = npos
      · have hrest : c ∉ rest := (rfindChar_eq_npos rest c hlen2).mp hr
        rw [if_pos hr]
        by_cases ha : a = c
        · rw [if_pos ha]
          simp [hrest]
        · rw [if_neg ha]
          simp [hrest]
      · have hlt := rfindChar_lt_length rest c hr
        have hrest : c ∈ rest := by
          by_contra h
          exact hr ((rfindChar_eq_npos rest c hlen2).mpr h)
        rw [if_neg hr]
        simp only [hrest, iff_true]
        have : rfindChar rest c + 1 < npos := by
          simp only [npos] at hlen2 ⊢
          omega
        omega

theorem intOfSizeT_nonneg (n : Nat) :
    (0 ≤ intOfSizeT n) ↔ n % 2 ^ 32 < 2 ^ 31 := by
  unfold intOfSizeT
  split <;> omega

theorem spec_sep_iff (l : List Char) :
    spec_containsPathSeparator l = true ↔ ('/' ∈ l ∨ '\\' ∈ l) := by
  simp only [spec_containsPathSeparator, List.any_eq_true, Bool.or_eq_true,
    beq_iff_eq]
  constructor
  · rintro ⟨x, hx, h | h⟩
    · exact Or.inl (h ▸ hx)
    · exact Or.inr (h ▸ hx)
  · rintro (h | h)
    · exact ⟨_, h, Or.inl rfl⟩
    · exact ⟨_, h, Or.inr rfl⟩

theorem rfindChar_eq_zero (s : List Char) (c : Char) (h : rfindChar s c = 0) :
    s.head? = some c := by
  cases s with
  | nil =>
      simp only [rfindChar, npos] at h
      omega
  | cons a rest =>
      simp only [rfindChar] at h
      by_cases hr : rfindChar rest c = npos
      · rw [if_pos hr] at h
        by_cases ha : a = c
        · simp [ha]
        · rw [if_neg ha] at h
          simp only [npos] at h
          omega
      · rw [if_neg hr] at h
        omega

/-- Claim C6, counterexample. The argument `/a` contains a path separator
(a forward slash), yet the code appends it unquoted: `rfind('\\')` is
`npos`, `rfind('/')` is `0`, their `size_t` sum wraps to `npos`, and
`int(npos)` is `-1 < 0`.  The claimed "quoted iff it contains a path
separator" is therefore false on the code. -/
theorem quote_heuristic_cex :
    spec_containsPathSeparator ['/', 'a'] = true ∧
    argQuoted ['/', 'a'] = false ∧
    shellLine ['l', 's'] [['/', 'a']] =
      [quoteChar, 'l', 's', quoteChar, ' ', '/', 'a'] := by
  refine ⟨by decide, by decide, by decide⟩

/-- Claim C6, amended. In shell-string construction the command is always
wrapped in double quotes, and an argument is wrapped in double quotes iff
it contains a path separator (forward slash or backslash) at a position
other than the first character; an argument whose only separator is its
leading character is appended unquoted.  (Stated for arguments of length
at most `2 ^ 30`, inside which the `size_t`/`int` wrap-around of
`int(rfind('\\') + rfind('/'))` behaves as described.) -/
theorem shell_quote_amended (cmd arg : List Char) (args : List (List Char))
    (hlen : arg.length ≤ 2 ^ 30) :
    (shellLine cmd args).take (cmd.length + 2) = [quoteChar] ++ cmd ++ [quoteChar] ∧
    (argQuoted arg = true ↔ spec_containsPathSeparator (arg.drop 1) = true) := by
  constructor
  · have hsplit : shellLine cmd args =
        ([quoteChar] ++ cmd ++ [quoteChar]) ++ (args.map renderArg).flatten := by
      simp [shellLine]
    rw [hsplit]
    have hL : ([quoteChar] ++ cmd ++ [quoteChar]).length = cmd.length + 2 := by
      simp
    rw [← hL, List.take_left]
  · have hlt : arg.length < npos := by
      simp only [npos]
      omega
    have key : argQuoted arg = true ↔ quotePos arg % 2 ^ 32 < 2 ^ 31 := by
      simp [argQuoted, intOfSizeT_nonneg]
    rw [key, spec_sep_iff, quotePos]
    rcases eq_or_ne (rfindChar arg '\\') npos with hB | hB
    · rcases eq_or_ne (rfindChar arg '/') npos with hF | hF
      · have hBm : '\\' ∉ arg := (rfindChar_eq_npos arg '\\' hlt).mp hB
        have hFm : '/' ∉ arg := (rfindChar_eq_npos arg '/' hlt).mp hF
        rw [hB, hF]
        constructor
        · intro h
          exfalso
          simp only [npos] at h
          omega
        · rintro (h | h)
          · exact absurd (List.mem_of_mem_drop h) hFm
          · exact absurd (List.mem_of_mem_drop h) hBm
      · have hFlt := rfindChar_lt_length arg '/' hF
        have htail := rfindChar_tail arg '/' hlt
        rw [hB]
        constructor
        · intro h
          left
          apply htail.mp
          refine ⟨?_, hF⟩
          by_contra hnot
          have hf0 : rfindChar arg '/' = 0 := by omega
          rw [hf0] at h
          simp only [npos] at h
          omega
        · intro h
          have h1 : 1 ≤ rfindChar arg '/' := by
            rcases h with h | h
            · exact (htail.mpr h).1
            · exact absurd (List.mem_of_mem_drop h)
                ((rfindChar_eq_npos arg '\\' hlt).mp hB)
          simp only [npos] at hF ⊢
          omega
    · have hBlt := rfindChar_lt_length arg '\\' hB
      have hbtail := rfindChar_tail arg '\\' hlt
      rcases eq_or_ne (rfindChar arg '/') npos with hF | hF
      · rw [hF]
        constructor
        · intro h
          right
          apply hbtail.mp
          refine ⟨?_, hB⟩
          by_contra hnot
          have hb0 : rfindChar arg '\\' = 0 := by omega
          rw [hb0] at h
          simp only [npos] at h
          omega
        · intro h
          have h1 : 1 ≤ rfindChar arg '\\' := by
            rcases h with h | h
            · exact absurd (List.mem_of_mem_drop h)
                ((rfindChar_eq_npos arg '/' hlt).mp hF)
            · exact (hbtail.mpr h).1
          simp only [npos] at hB ⊢
          omega
      · have hFlt := rfindChar_lt_length arg '/' hF
        have hftail := rfindChar_tail arg '/' hlt
        constructor
        · intro _
          by_cases hb1 : 1 ≤ rfindChar arg '\\'
          · right
            exact hbtail.mp ⟨hb1, hB⟩
          · have hb0 : rfindChar arg '\\' = 0 := by omega
            have hf1 : 1 ≤ rfindChar arg '/' := by
              by_contra hf
              have hf0 : rfindChar arg '/' = 0 := by omega
              have e1 := rfindChar_eq_zero arg '\\' hb0
              have e2 := rfindChar_eq_zero arg '/' hf0
              rw [e1] at e2
              simp at e2
            left
            exact hftail.mp ⟨hf1, hF⟩
        · intro _
          omega

/-- Concrete instantiation of `shell_quote_amended`: command `ls`,
argument `a/` (separator at index 1, hence quoted). -/
theorem shell_quote_amended_witness :
    (['a', '/'] : List Char).length ≤ 2 ^ 30 ∧
    ((shellLine ['l', 's'] [['a', '/']]).take (2 + 2) =
        [quoteChar] ++ ['l', 's'] ++ [quoteChar] ∧
      (argQuoted ['a', '/'] = true ↔
        spec_containsPathSeparator (['a', '/'].drop 1) = true)) :=
  ⟨by decide, shell_quote_amended ['l', 's'] ['a', '/'] [['a', '/']] (by decide)⟩

/-! ## Launch plans: argv/env vectors and mode dispatch

POSIX side (`#else`, lines 457-493): `theIsExecProgram` selects between
the program-args path, which fills a NULL-terminated `argv` vector
(`argv[0] = command`, `argv[i+1] = args[i]`, lines 464-478) handed to
`execvp`/`execvpe`, and the shell path, which hands the assembled line
to `execl("/bin/sh", "sh", "-c", line)` (line 323).  Windows side
(`#ifdef WIN32`, lines 419-455): the flag is never consulted; both
module functions run `CreateProcess` on the single `cmd /C "..."` line.
Strings are modelled as `List Char`. -/

/-- A C string in the argument/environment vectors. -/
abbrev Str := List Char

/-- The C loop `for i: v[base + i] = items[i]`: successive vector
assignments at increasing indices. -/
def fillVec (v : List (Option Str)) (i : Nat) : List Str → List (Option Str)
  | [] => v
  | x :: rest => fillVec (v.set i (some x)) (i + 1) rest

/-- Lines 464, 471-473: `std::vector<char*> argv(args.size() + 2, NULL)`,
then `argv[0] = command` and `argv[i+1] = args[i]`. -/
def buildArgv (cmd : Str) (args : List Str) : List (Option Str) :=
  fillVec ((List.replicate (args.length + 2) none).set 0 (some cmd)) 1 args

/-- Lines 465, 475-476: `std::vector<char*> env(lEnv.size() + 1, NULL)`,
then `env[i] = lEnv[i]`. -/
def buildEnv (lEnv : List Str) : List (Option Str) :=
  fillVec (List.replicate (lEnv.length + 1) none) 0 lEnv

/-- The entries before the first NULL: what the `exec*` family reads out
of a NULL-terminated vector. -/
def takeSomes : List (Option Str) → List Str
  | some s :: rest => s :: takeSomes rest
  | _ => []

theorem fillVec_cons (rest : List Str) (a : Option Str) (v : List (Option Str))
    (i : Nat) : fillVec (a :: v) (i + 1) rest = a :: fillVec v i rest := by
  induction rest generalizing a v i with
  | nil => rfl
  | cons x r ih =>
      show fillVec ((a :: v).set (i + 1) (some x)) (i + 2) r =
        a :: fillVec (v.set i (some x)) (i + 1) r
      rw [List.set_cons_succ]
      exact ih a (v.set i (some x)) (i + 1)

theorem fillVec_replicate (rest : List Str) (k : Nat) :
    fillVec (List.replicate (rest.length + k) none) 0 rest =
      rest.map some ++ List.replicate k none := by
  induction rest with
  | nil => simp [fillVec]
  | cons x r ih =>
      show fillVec ((List.replicate (r.length + 1 + k) none).set 0 (some x)) 1 r =
        some x :: (r.map some ++ List.replicate k none)
      have hrep : List.replicate (r.length + 1 + k) (none : Option Str) =
          none :: List.replicate (r.length + k) none := by
        rw [show r.length + 1 + k = r.length + k + 1 by omega]
        rfl
      rw [hrep, List.set_cons_zero, fillVec_cons, ih]

theorem takeSomes_map (xs : List Str) (t : List (Option Str)) :
    takeSomes (xs.map some ++ none :: t) = xs := by
  induction xs with
  | nil => rfl
  | cons x r ih =>
      show x :: takeSomes (r.map some ++ none :: t) = x :: r
      rw [ih]

theorem buildArgv_spec (cmd : Str) (args : List Str) :
    takeSomes (buildArgv cmd args) = cmd :: args := by
  unfold buildArgv
  have hrep : List.replicate (args.length + 2) (none : Option Str) =
      none :: List.replicate (args.length + 1) none := rfl
  rw [hrep, List.set_cons_zero, fillVec_cons]
  rw [show args.length + 1 = args.length + 1 from rfl, fillVec_replicate args 1]
  show takeSomes (some cmd :: (args.map some ++ none :: [])) = cmd :: args
  rw [show takeSomes (some cmd :: (args.map some ++ none :: [])) =
    cmd :: takeSomes (args.map some ++ none :: []) from rfl]
  rw [takeSomes_map]

theorem buildEnv_spec (lEnv : List Str) :
    takeSomes (buildEnv lEnv) = lEnv := by
  unfold buildEnv
  rw [fillVec_replicate lEnv 1]
  exact takeSomes_map lEnv []

/-- What is handed to the operating system to start the child. -/
inductive LaunchPlan where
  | shellWords (line : Str)
  | programVector (argv : List Str) (envp : Option (List Str))
deriving DecidableEq, Repr

/-- The Windows command line, lines 419-438: the quoted line additionally
wrapped in `cmd /C "..."`. -/
def winShellLine (cmd : Str) (args : List Str) : Str :=
  ('c' :: 'm' :: 'd' :: ' ' :: '/' :: 'C' :: ' ' :: [quoteChar]) ++
    shellLine cmd args ++ [quoteChar]

/-- POSIX dispatch (lines 469-483) combined with what the child execs in
`exec_helper` (lines 322-327): program-args mode passes the argv vector,
with the env vector exactly when `lEnv.size()` is non-zero (line 478);
shell mode passes the assembled line to `/bin/sh -c`. -/
def posixLaunchPlan (theIsExecProgram : Bool) (cmd : Str) (args : List Str)
    (lEnv : List Str) : LaunchPlan :=
  if theIsExecProgram then
    .programVector (takeSomes (buildArgv cmd args))
      (if lEnv.length ≠ 0 then some (takeSomes (buildEnv lEnv)) else none)
  else
    .shellWords (shellLine cmd args)

/-- Windows launch (lines 419-455): `theIsExecProgram` is never consulted;
both module functions hand `CreateProcess` the single `cmd /C` line. -/
def winLaunchPlan (_theIsExecProgram : Bool) (cmd : Str) (args : List Str)
    (_lEnv : List Str) : LaunchPlan :=
  .shellWords (winShellLine cmd args)

/-- Claim C7, counterexample. On the Windows backend, program-args mode
(`theIsExecProgram = true`, program `p`, arguments `a` and `bc`, no env)
does not pass a discrete vector: the launch is the single
shell-interpreted line `cmd /C ""p" a bc"`. -/
theorem progargs_vector_cex :
    winLaunchPlan true ['p'] [['a'], ['b', 'c']] [] =
      .shellWords ('c' :: 'm' :: 'd' :: ' ' :: '/' :: 'C' :: ' ' :: quoteChar ::
        quoteChar :: 'p' :: quoteChar :: ' ' :: 'a' :: ' ' :: 'b' :: 'c' ::
        [quoteChar]) ∧
    winLaunchPlan true ['p'] [['a'], ['b', 'c']] [] ≠
      .programVector [['p'], ['a'], ['b', 'c']] none := by
  refine ⟨by decide, by decide⟩

/-- Claim C7, amended. On the POSIX backend, program-args mode passes the
program and arguments to the child as the discrete vector
`[program, args...]` (via `execvp`/`execvpe`, no shell involved), with
the environment vector exactly when the env sequence is non-empty; the
Windows backend has no program-args mode and always launches the single
shell-interpreted `cmd /C` line, whichever function was invoked. -/
theorem progargs_vector_amended (theIsExecProgram : Bool) (cmd : Str)
    (args lEnv : List Str) :
    posixLaunchPlan true cmd args lEnv =
      .programVector (cmd :: args) (if lEnv.length ≠ 0 then some lEnv else none) ∧
    winLaunchPlan theIsExecProgram cmd args lEnv =
      .shellWords (winShellLine cmd args) := by
  constructor
  · unfold posixLaunchPlan
    rw [if_pos rfl, buildArgv_spec, buildEnv_spec]
  · rfl

/-- The environment the child process ends up with: `evaluate` passes
`lEnv.size() ? env.data() : NULL` (line 478); in the child,
`exec_helper` runs `execvp` (inheriting the parent environment) when
`env == NULL` and `execvpe` otherwise (lines 324-327), and `execvpe`
installs exactly the supplied vector as `environ` (lines 52-61). -/
def childEnvironment (parentEnv : List Str) (lEnv : List Str) : List Str :=
  match (if lEnv.length ≠ 0 then some (takeSomes (buildEnv lEnv)) else none) with
  | none => parentEnv
  | some e => e

/-- Claim C8. In program-args mode with a non-empty env sequence, the
environment of the child is exactly the supplied `KEY=VALUE` vector: the
inherited parent environment is replaced entirely, not merged into. -/
theorem env_replaces (parentEnv lEnv : List Str) (h : lEnv ≠ []) :
    childEnvironment parentEnv lEnv = lEnv ∧
    (∀ kv, kv ∈ childEnvironment parentEnv lEnv ↔ kv ∈ lEnv) := by
  have hlen : lEnv.length ≠ 0 := by
    intro h0
    exact h (List.eq_nil_of_length_eq_zero h0)
  have : childEnvironment parentEnv lEnv = lEnv := by
    unfold childEnvironment
    rw [if_pos hlen]
    exact buildEnv_spec lEnv
  exact ⟨this, fun kv => by rw [this]⟩

/-- Concrete instantiation of `env_replaces`: env `[A=1]` replaces parent
environment `[B=2]`. -/
theorem env_replaces_witness :
    ([['A', '=', '1']] : List Str) ≠ [] ∧
    (childEnvironment [['B', '=', '2']] [['A', '=', '1']] = [['A', '=', '1']] ∧
      (∀ kv, kv ∈ childEnvironment [['B', '=', '2']] [['A', '=', '1']] ↔
        kv ∈ [['A', '=', '1']])) :=
  ⟨by decide, env_replaces [['B', '=', '2']] [['A', '=', '1']] (by decide)⟩

/-- Claim C10. In program-args mode with an empty env sequence the
replacement mechanism is not engaged (`env.data()` is replaced by `NULL`
at line 478, so the child runs `execvp`): the child inherits the
parent environment unchanged. -/
theorem env_empty_inherits (parentEnv : List Str) :
    childEnvironment parentEnv [] = parentEnv := rfl


/-! ## The POSIX invocation path: spawn, drain, wait, encode

`exec_helper` (lines 297-366) returns `-1` when a `pipe(2)` call or the
`fork(2)` fails; an exec failure inside the child is invisible to the
parent (the child prints via `perror` and calls `abort()`, line 342).
`evaluate` (lines 457-563) throws exactly at three places: `pid == -1`
(line 485), `close(errfp) < 0` (line 511) and `waitpid == -1` (line
524).  The drain loops `while ((length = read(...)) > 0)` (lines
497-507) stop at the first non-positive return, error or not. -/

/-- One interaction with `read(fd, buf, PATH_MAX)`: a positive return
carrying bytes, end-of-stream (return 0), or an error return (-1). -/
inductive ReadEv where
  | chunk (s : Str)
  | eof
  | rerr
deriving DecidableEq, Repr

/-- The drain loops of lines 497-507: accumulate chunks, stop at the
first non-positive return, whether end-of-stream or error. -/
def drainPosix : List ReadEv → Str
  | .chunk s :: rest => s ++ drainPosix rest
  | _ => []

/-- The record handed back to the caller (`create_result_object`). -/
structure ExecutionResult where
  stdout : Str
  stderr : Str
  exitCode : Nat
deriving DecidableEq, Repr

/-- The three `USER_EXCEPTION` sites on the POSIX path of `evaluate`. -/
inductive PosixFailure where
  /-- line 485: `pid == -1`, "Failed to execute the command (-1)" -/
  | spawn
  /-- line 511: `close(errfp) < 0`, "Failed to close the err stream" -/
  | closeErr
  /-- line 524: `waitpid == -1`, "Failed to wait for child process" -/
  | wait
deriving DecidableEq, Repr

/-- A finished POSIX invocation: a result object or a thrown error. -/
inductive Outcome where
  | result (r : ExecutionResult)
  | failure (f : PosixFailure)
deriving DecidableEq, Repr

/-- Everything the operating system decides during one POSIX invocation. -/
structure PosixOS where
  /-- all three `pipe(2)` calls succeed (line 304) -/
  pipesOk : Bool
  /-- the `fork(2)` call succeeds (line 307) -/
  forkOk : Bool
  /-- the exec of the target program succeeds in the child (lines 322-327) -/
  execOk : Bool
  /-- the raw status `waitpid` reports when the exec succeeded -/
  childStat : Nat
  /-- successive `read(outfp, ...)` returns -/
  outReads : List ReadEv
  /-- successive `read(errfp, ...)` returns -/
  errReads : List ReadEv
  /-- result of `close(outfp)`: assigned to `status` at line 502 but
  overwritten by the `close(errfp)` result before the only check, so the
  model never reads it -/
  closeOutOk : Bool
  /-- result of `close(errfp)`, checked at line 511 -/
  closeErrOk : Bool
  /-- the `waitpid(pid, &stat, 0)` call succeeds (line 522) -/
  waitOk : Bool
deriving DecidableEq, Repr

/-- Signal `SIGABRT`: when the child cannot exec the target program it calls
`abort()` (line 342), so the parent observes termination by signal 6. -/
def sigabrtStat : Nat := 6

/-- The POSIX half of `ExecFunction::evaluate` composed with
`exec_helper`: spawn check, sequential drains, the checked stderr close,
the wait, exit-code encoding and result assembly, in source order. -/
def posixEvaluate (os : PosixOS) : Outcome :=
  if os.pipesOk && os.forkOk then
    let lStdout := drainPosix os.outReads
    let lStderr := drainPosix os.errReads
    if os.closeErrOk then
      if os.waitOk then
        let stat := if os.execOk then os.childStat else sigabrtStat
        .result ⟨lStdout, lStderr, encode_stat stat⟩
      else .failure .wait
    else .failure .closeErr
  else .failure .spawn

/-- An invocation naming a nonexistent program: pipes and fork succeed,
the exec in the child fails, the child prints `execl` via `perror` to
the inherited stderr pipe and aborts; every later step succeeds. -/
def osNoExec : PosixOS :=
  { pipesOk := true, forkOk := true, execOk := false, childStat := 0,
    outReads := [.eof],
    errReads := [.chunk ['e', 'x', 'e', 'c', 'l'], .eof],
    closeOutOk := true, closeErrOk := true, waitOk := true }

/-- Claim C2, counterexample. An invocation naming a nonexistent program
does not fail with `SpawnFailure`: `fork` succeeds, so `pid != -1` and
the line-485 check passes; the invocation produces an `ExecutionResult`
(exit code `128 + SIGABRT = 134`, the `perror` text of the child on stderr),
contradicting "fails with SpawnFailure and no ExecutionResult is
produced". -/
theorem spawn_failure_cex :
    posixEvaluate osNoExec =
      .result ⟨[], ['e', 'x', 'e', 'c', 'l'], 134⟩ := by decide

/-- Claim C2, amended. On the POSIX backend, `SpawnFailure` is raised
exactly when pipe creation or the fork fails.  Naming a nonexistent or
non-executable program does not raise it: the fork succeeds, the exec
fails inside the child, the child aborts, and the invocation produces an
`ExecutionResult` whose exit code is `128 + SIGABRT = 134`. -/
theorem spawn_failure_amended (os : PosixOS)
    (hp : os.pipesOk = true) (hf : os.forkOk = true) (hx : os.execOk = false)
    (hc : os.closeErrOk = true) (hw : os.waitOk = true) :
    posixEvaluate os =
      .result ⟨drainPosix os.outReads, drainPosix os.errReads, 134⟩ ∧
    (∀ os2 : PosixOS, posixEvaluate os2 = .failure .spawn ↔
      (os2.pipesOk = false ∨ os2.forkOk = false)) := by
  constructor
  · simp [posixEvaluate, hp, hf, hx, hc, hw,
      show encode_stat sigabrtStat = 134 from by decide]
  · intro os2
    cases hp2 : os2.pipesOk <;> cases hf2 : os2.forkOk <;>
      cases hc2 : os2.closeErrOk <;> cases hw2 : os2.waitOk <;>
        simp [posixEvaluate, hp2, hf2, hc2, hw2]

/-- Concrete instantiation of `spawn_failure_amended` at `osNoExec`. -/
theorem spawn_failure_amended_witness :
    (osNoExec.pipesOk = true ∧ osNoExec.forkOk = true ∧
      osNoExec.execOk = false ∧ osNoExec.closeErrOk = true ∧
      osNoExec.waitOk = true) ∧
    (posixEvaluate osNoExec =
        .result ⟨drainPosix osNoExec.outReads, drainPosix osNoExec.errReads, 134⟩ ∧
      (∀ os2 : PosixOS, posixEvaluate os2 = .failure .spawn ↔
        (os2.pipesOk = false ∨ os2.forkOk = false))) :=
  ⟨⟨rfl, rfl, rfl, rfl, rfl⟩, spawn_failure_amended osNoExec rfl rfl rfl rfl rfl⟩

/-! ## The Windows invocation path -/

/-- One `ReadFile` interaction on a Windows pipe. -/
inductive WinReadEv where
  /-- a successful read carrying bytes -/
  | chunk (s : Str)
  /-- the `ReadFile` call fails (or reads zero bytes) with `ERROR_BROKEN_PIPE`:
  the normal end-of-stream signal (line 132) -/
  | brokenPipe
  /-- the `ReadFile` call fails with any other error (line 137 throws) -/
  | rdErr
deriving DecidableEq, Repr

/-- The carriage-return stripping of lines 147-151. -/
def stripCR (s : Str) : Str :=
  s.filter (fun ch => ch != '\r')

/-- Function `read_child_output` (lines 120-154): accumulate chunks minus CR
bytes until broken-pipe; any other read failure throws.  (The
`while(TRUE)` loop can only leave via those two events, so a modelled
trace ends in one of them; an exhausted trace is mapped to the thrown
error.) -/
def read_child_output : List WinReadEv → Except Unit Str
  | .chunk s :: rest =>
      match read_child_output rest with
      | .ok t => .ok (stripCR s ++ t)
      | .error e => .error e
  | .brokenPipe :: _ => .ok []
  | _ => .error ()

/-- The `USER_EXCEPTION` sites on the Windows path. -/
inductive WinFailure where
  /-- line 241: a `CreatePipe` call failed -/
  | pipes
  /-- line 285: `CreateProcess` failed -/
  | createProcess
  /-- line 263: `GetExitCodeProcess` failed -/
  | getExitCode
  /-- line 137: `ReadFile` failed with a non-broken-pipe error -/
  | readPipe
  /-- line 453: `evaluate` throws because the exit code is non-zero -/
  | nonzeroExit
deriving DecidableEq, Repr

/-- A finished Windows invocation. -/
inductive WinOutcome where
  | result (r : ExecutionResult)
  | failure (f : WinFailure)
deriving DecidableEq, Repr

/-- Everything the operating system decides during a Windows invocation. -/
structure WinOS where
  /-- both `CreatePipe` calls succeed (lines 236-237) -/
  pipesOk : Bool
  /-- the `CreateProcess` call succeeds (line 247) -/
  createOk : Bool
  /-- the `GetExitCodeProcess` call succeeds (line 256) -/
  exitCodeOk : Bool
  /-- the exit code it reports -/
  exitCode : Nat
  /-- successive `ReadFile` interactions on the stdout pipe -/
  outReads : List WinReadEv
  /-- successive `ReadFile` interactions on the stderr pipe -/
  errReads : List WinReadEv
deriving DecidableEq, Repr

/-- Function `run_process` (lines 219-290): create pipes, spawn, wait for exit,
fetch the exit code, then drain stdout and stderr sequentially. -/
def run_process (os : WinOS) : Except WinFailure (Str × Str × Nat) :=
  if os.pipesOk then
    if os.createOk then
      if os.exitCodeOk then
        match read_child_output os.outReads with
        | .ok outS =>
            match read_child_output os.errReads with
            | .ok errS => .ok (outS, errS, os.exitCode)
            | .error _ => .error .readPipe
        | .error _ => .error .readPipe
      else .error .getExitCode
    else .error .createProcess
  else .error .pipes

/-- The Windows half of `ExecFunction::evaluate` (lines 443-455): a
non-zero code from `run_process` is turned into a thrown COMMUNICATION
error ("Failed to execute the command"); only code 0 reaches the result
object. -/
def winEvaluate (os : WinOS) : WinOutcome :=
  match run_process os with
  | .error f => .failure f
  | .ok (outS, errS, code) =>
      if code ≠ 0 then .failure .nonzeroExit
      else .result ⟨outS, errS, code⟩

/-- A Windows child that runs fine and exits with code 1. -/
def osWinExit1 : WinOS :=
  { pipesOk := true, createOk := true, exitCodeOk := true, exitCode := 1,
    outReads := [.brokenPipe], errReads := [.brokenPipe] }

/-- Claim C4, counterexample. On the Windows backend a successfully
spawned child exiting normally with code 1 does not get its code
delivered in a result: the invocation throws "Failed to execute the
command (1)", contradicting "delivered in the result, not reported as a
failure, on every backend". -/
theorem nonzero_exit_cex :
    winEvaluate osWinExit1 = .failure .nonzeroExit := by decide

/-- Claim C4, amended. On the POSIX backend every successfully spawned
child that exits normally with code `c` (0 ≤ c ≤ 255) yields an
`ExecutionResult` carrying exactly `c`, zero or not; on the Windows
backend only exit code 0 ever reaches an `ExecutionResult` — any
non-zero code is reported as a failure instead. -/
theorem exit_code_delivery_amended (os : PosixOS) (c : Nat) (hc : c ≤ 255)
    (hp : os.pipesOk = true) (hf : os.forkOk = true) (hx : os.execOk = true)
    (hs : os.childStat = exitStat c) (hcl : os.closeErrOk = true)
    (hw : os.waitOk = true) :
    posixEvaluate os =
      .result ⟨drainPosix os.outReads, drainPosix os.errReads, c⟩ ∧
    (∀ w : WinOS, ∀ r : ExecutionResult,
      winEvaluate w = .result r → r.exitCode = 0) := by
  constructor
  · simp [posixEvaluate, hp, hf, hx, hcl, hw, hs, encode_exitStat c hc]
  · intro w r h
    unfold winEvaluate at h
    cases hrp : run_process w with
    | error f =>
        rw [hrp] at h
        simp at h
    | ok triple =>
        obtain ⟨outS, errS, code⟩ := triple
        rw [hrp] at h
        replace h : (if code ≠ 0 then WinOutcome.failure WinFailure.nonzeroExit
            else WinOutcome.result ⟨outS, errS, code⟩) = WinOutcome.result r := h
        by_cases hc0 : code ≠ 0
        · rw [if_pos hc0] at h
          exact absurd h (by simp)
        · rw [if_neg hc0] at h
          have hr : ExecutionResult.mk outS errS code = r :=
            WinOutcome.result.inj h
          rw [← hr]
          simpa using hc0

/-- Concrete instantiation of `exit_code_delivery_amended`: a POSIX
child exiting with code 3. -/
theorem exit_code_delivery_amended_witness :
    (3 ≤ 255 ∧
      posixEvaluate
        { pipesOk := true, forkOk := true, execOk := true,
          childStat := exitStat 3, outReads := [ReadEv.eof],
          errReads := [ReadEv.eof], closeOutOk := true, closeErrOk := true,
          waitOk := true } = .result ⟨[], [], 3⟩) ∧
    (∀ w : WinOS, ∀ r : ExecutionResult,
      winEvaluate w = .result r → r.exitCode = 0) :=
  have h := exit_code_delivery_amended
    { pipesOk := true, forkOk := true, execOk := true,
      childStat := exitStat 3, outReads := [ReadEv.eof],
      errReads := [ReadEv.eof], closeOutOk := true, closeErrOk := true,
      waitOk := true } 3 (by decide) rfl rfl rfl rfl rfl rfl
  ⟨⟨by decide, h.1⟩, h.2⟩

/-- A POSIX child whose stdout read errors out mid-stream. -/
def osReadErr : PosixOS :=
  { pipesOk := true, forkOk := true, execOk := true, childStat := 0,
    outReads := [.chunk ['a', 'b'], .rerr], errReads := [.eof],
    closeOutOk := true, closeErrOk := true, waitOk := true }

/-- Claim C9, counterexample. A `read(2)` error (return -1) on the stdout
pipe after the bytes `ab` were read does not make the invocation fail:
the `while (read > 0)` loop merely stops, and the invocation returns a
normal result containing the partial output `ab` — contradicting "fails
with DrainFailure and any partial output already read is discarded". -/
theorem drain_error_cex :
    posixEvaluate osReadErr = .result ⟨['a', 'b'], [], 0⟩ := by decide

/-- Claim C9, amended. On the Windows backend a `ReadFile` failure other
than broken-pipe aborts the invocation (partial output is discarded); on
the POSIX backend a `read(2)` error return merely stops that drain loop
like end-of-stream, and the partial output already read is returned to
the caller in a normal result — only a failing `close(errfp)` or a
failing `waitpid` raises an error there. -/
theorem drain_error_amended (os : PosixOS) (pre : Str) (rest : List ReadEv)
    (hp : os.pipesOk = true) (hf : os.forkOk = true)
    (ho : os.outReads = .chunk pre :: .rerr :: rest)
    (hc : os.closeErrOk = true) (hw : os.waitOk = true) :
    posixEvaluate os =
      .result ⟨pre, drainPosix os.errReads,
        encode_stat (if os.execOk then os.childStat else sigabrtStat)⟩ ∧
    (∀ wpre : Str, ∀ wrest : List WinReadEv,
      read_child_output (.chunk wpre :: .rdErr :: wrest) = .error ()) := by
  constructor
  · simp [posixEvaluate, hp, hf, hc, hw, ho, drainPosix]
  · intro wpre wrest
    rfl

/-- Concrete instantiation of `drain_error_amended` at `osReadErr`. -/
theorem drain_error_amended_witness :
    (osReadErr.pipesOk = true ∧ osReadErr.forkOk = true ∧
      osReadErr.outReads = [ReadEv.chunk ['a', 'b'], ReadEv.rerr] ∧
      osReadErr.closeErrOk = true ∧ osReadErr.waitOk = true) ∧
    (posixEvaluate osReadErr =
        .result ⟨['a', 'b'], drainPosix osReadErr.errReads,
          encode_stat
            (if osReadErr.execOk then osReadErr.childStat else sigabrtStat)⟩ ∧
      (∀ wpre : Str, ∀ wrest : List WinReadEv,
        read_child_output (.chunk wpre :: .rdErr :: wrest) = .error ())) :=
  ⟨⟨rfl, rfl, rfl, rfl, rfl⟩,
    drain_error_amended osReadErr ['a', 'b'] [] rfl rfl rfl rfl rfl⟩


/-! ## File-descriptor bookkeeping on the POSIX path

`exec_helper` creates up to three pipes (line 304, short-circuit
evaluation) and forks; on its failure returns (`pipe` failed, line 305,
or `fork` failed, line 310) it returns `-1` immediately.  On success the
parent closes the stdin pipe and the stdout/stderr write ends (lines
346-363) and `evaluate` closes the two read ends after draining (lines
502, 509). -/

/-- The six parent-side descriptors `exec_helper` can create. -/
inductive Fd where
  | stdinR
  | stdinW
  | stdoutR
  | stdoutW
  | stderrR
  | stderrW
deriving DecidableEq, Repr, Fintype

/-- Which pipe creations and the fork succeed. -/
structure SpawnSteps where
  stdinPipeOk : Bool
  stdoutPipeOk : Bool
  stderrPipeOk : Bool
  forkOk : Bool
deriving DecidableEq, Repr

/-- Descriptors created: `pipe(p_stdin) != 0 || pipe(p_stdout) != 0 ||
pipe(p_stderr) != 0` creates pipes left to right until one fails; a
failing `pipe(2)` creates no descriptors. -/
def fdsCreated (st : SpawnSteps) : List Fd :=
  if st.stdinPipeOk then
    if st.stdoutPipeOk then
      if st.stderrPipeOk then
        [.stdinR, .stdinW, .stdoutR, .stdoutW, .stderrR, .stderrW]
      else [.stdinR, .stdinW, .stdoutR, .stdoutW]
    else [.stdinR, .stdinW]
  else []

/-- Descriptors the parent closes before the invocation finishes, in
source order: nothing on the two failure returns; on success `stdinW`
(`infp == NULL`), `stdinR`, `stdoutW`, `stderrW` inside `exec_helper`,
then `stdoutR` (`close(outfp)`) and `stderrR` (`close(errfp)`) in
`evaluate` after the drains. -/
def fdsClosed (st : SpawnSteps) : List Fd :=
  if st.stdinPipeOk && st.stdoutPipeOk && st.stderrPipeOk then
    if st.forkOk then
      [.stdinW, .stdinR, .stdoutW, .stderrW, .stdoutR, .stderrR]
    else []
  else []

/-- Descriptors created by the invocation but never closed by it. -/
def fdsLeaked (st : SpawnSteps) : List Fd :=
  (fdsCreated st).filter (fun fd => !(fdsClosed st).contains fd)

/-- Claim C5. The resource-safety invariant fails on the spawn-failure
paths: when `pipe(p_stdin)` succeeds and `pipe(p_stdout)` fails,
`exec_helper` returns `-1` leaving both stdin-pipe descriptors open, and
when the `fork` fails all six descriptors leak; only the success path
closes every created descriptor, and there exactly once. -/
theorem fd_release_claim :
    fdsLeaked ⟨true, false, true, true⟩ = [Fd.stdinR, Fd.stdinW] ∧
    fdsLeaked ⟨true, true, true, false⟩ =
      [Fd.stdinR, Fd.stdinW, Fd.stdoutR, Fd.stdoutW, Fd.stderrR, Fd.stderrW] ∧
    fdsLeaked ⟨true, true, true, true⟩ = [] ∧
    (fdsClosed ⟨true, true, true, true⟩).Nodup ∧
    (∀ fd, fd ∈ fdsClosed ⟨true, true, true, true⟩ ↔
      fd ∈ fdsCreated ⟨true, true, true, true⟩) := by
  refine ⟨by decide, by decide, by decide, by decide, by decide⟩

/-! ## Drain ordering: bounded-pipe simulation

Lines 497-507 drain the stdout pipe to end-of-stream and only then the
stderr pipe.  We simulate the child and this sequential parent against
pipes with a bounded buffer of `cap` bytes: a child `write` blocks
once a buffer is full, a parent `read` blocks until the buffer has
data or the child has exited (end-of-stream requires the write
end of the child closed, which happens at exit).  A state in which neither side can
move is a genuine deadlock under any scheduler. -/

/-- A child write: which stream (`true` = stdout) and how many bytes. -/
structure WriteOp where
  toStdout : Bool
  bytes : Nat
deriving DecidableEq, Repr

/-- Parent progress through the sequential drain: stdout first, then
stderr, then finished. -/
inductive Phase where
  | outDrain
  | errDrain
  | done
deriving DecidableEq, Repr

/-- Joint state of the child and the sequentially-draining parent. -/
structure SimState where
  ops : List WriteOp
  exited : Bool
  outBuf : Nat
  errBuf : Nat
  outRead : Nat
  errRead : Nat
  phase : Phase
deriving DecidableEq, Repr

/-- One parent step; `none` when the parent is blocked (or finished). -/
def stepParent (s : SimState) : Option SimState :=
  match s.phase with
  | .outDrain =>
      if 0 < s.outBuf then
        some { s with outBuf := 0, outRead := s.outRead + s.outBuf }
      else if s.exited then
        some { s with phase := .errDrain }
      else none
  | .errDrain =>
      if 0 < s.errBuf then
        some { s with errBuf := 0, errRead := s.errRead + s.errBuf }
      else if s.exited then
        some { s with phase := .done }
      else none
  | .done => none

/-- One child step; `none` when the child is blocked (or gone): the
pending write transfers what fits into the destination buffer and blocks
on the remainder; when out of writes the child exits, closing its write
ends. -/
def stepChild (cap : Nat) (s : SimState) : Option SimState :=
  if s.exited then none
  else
    match s.ops with
    | [] => some { s with exited := true }
    | op :: rest =>
        let buf := if op.toStdout then s.outBuf else s.errBuf
        let space := cap - buf
        if space = 0 then none
        else
          let t := min op.bytes space
          let newOps := if op.bytes ≤ space then rest
            else WriteOp.mk op.toStdout (op.bytes - t) :: rest
          if op.toStdout then
            some { s with ops := newOps, outBuf := buf + t }
          else
            some { s with ops := newOps, errBuf := buf + t }

/-- Verdict of a bounded simulation. -/
inductive SimResult where
  | completed (outBytes errBytes : Nat)
  | deadlock
  | outOfFuel
deriving DecidableEq, Repr

/-- Run the interaction for at most `fuel` steps: the parent moves
whenever its blocking `read` can be satisfied, otherwise the child
moves; if neither can move the system is deadlocked. -/
def runSim (cap : Nat) : Nat → SimState → SimResult
  | 0, _ => .outOfFuel
  | fuel + 1, s =>
      if s.phase = .done then .completed s.outRead s.errRead
      else
        match stepParent s with
        | some s2 => runSim cap fuel s2
        | none =>
            match stepChild cap s with
            | some s2 => runSim cap fuel s2
            | none => .deadlock

/-- Initial state for a child performing `ops` against empty pipes. -/
def initSim (ops : List WriteOp) : SimState :=
  { ops := ops, exited := false, outBuf := 0, errBuf := 0,
    outRead := 0, errRead := 0, phase := .outDrain }

/-- The simulation reaches verdict `r` from `s` given enough fuel. -/
def Reaches (cap : Nat) (s : SimState) (r : SimResult) : Prop :=
  ∃ fuel, runSim cap fuel s = r

theorem reaches_done (cap : Nat) (s : SimState) (h : s.phase = .done) :
    Reaches cap s (.completed s.outRead s.errRead) := by
  refine ⟨1, ?_⟩
  unfold runSim
  rw [if_pos h]

theorem reaches_parent (cap : Nat) (s s2 : SimState) (r : SimResult)
    (hp : s.phase ≠ .done) (hstep : stepParent s = some s2)
    (h : Reaches cap s2 r) : Reaches cap s r := by
  obtain ⟨fuel, hrun⟩ := h
  refine ⟨fuel + 1, ?_⟩
  unfold runSim
  rw [if_neg hp, hstep]
  exact hrun

theorem reaches_child (cap : Nat) (s s2 : SimState) (r : SimResult)
    (hp : s.phase ≠ .done) (hpar : stepParent s = none)
    (hstep : stepChild cap s = some s2)
    (h : Reaches cap s2 r) : Reaches cap s r := by
  obtain ⟨fuel, hrun⟩ := h
  refine ⟨fuel + 1, ?_⟩
  unfold runSim
  rw [if_neg hp, hpar, hstep]
  exact hrun


theorem reaches_err_phase (cap y acc : Nat) (hcap : 1 ≤ cap) (hy : y ≤ cap) :
    Reaches cap
      { ops := [WriteOp.mk false y], exited := false, outBuf := 0, errBuf := 0,
        outRead := acc, errRead := 0, phase := .outDrain }
      (.completed acc y) := by
  have hcap0 : ¬(cap = 0) := by omega
  -- the child writes its y stderr bytes; they fit since y ≤ cap
  apply reaches_child cap _
    { ops := [], exited := false, outBuf := 0, errBuf := y,
      outRead := acc, errRead := 0, phase := .outDrain }
    _ (by simp) (by rfl)
    (by simp [stepChild, hcap0, Nat.min_eq_left hy, hy])
  -- out of writes: the child exits, closing its write ends
  apply reaches_child cap _
    { ops := [], exited := true, outBuf := 0, errBuf := y,
      outRead := acc, errRead := 0, phase := .outDrain }
    _ (by simp) (by rfl) (by rfl)
  -- the parent sees stdout end-of-stream and moves to the stderr drain
  apply reaches_parent cap _
    { ops := [], exited := true, outBuf := 0, errBuf := y,
      outRead := acc, errRead := 0, phase := .errDrain }
    _ (by simp) (by rfl)
  rcases Nat.eq_zero_or_pos y with hy0 | hy0
  · -- no stderr bytes: end-of-stream at once
    subst hy0
    apply reaches_parent cap _
      { ops := [], exited := true, outBuf := 0, errBuf := 0,
        outRead := acc, errRead := 0, phase := .done }
      _ (by simp) (by rfl)
    exact reaches_done cap _ rfl
  · -- the parent reads the y buffered stderr bytes, then end-of-stream
    apply reaches_parent cap _
      { ops := [], exited := true, outBuf := 0, errBuf := 0,
        outRead := acc, errRead := y, phase := .errDrain }
      _ (by simp) (by simp [stepParent, hy0])
    apply reaches_parent cap _
      { ops := [], exited := true, outBuf := 0, errBuf := 0,
        outRead := acc, errRead := y, phase := .done }
      _ (by simp) (by rfl)
    exact reaches_done cap _ rfl

theorem reaches_out_phase (cap y : Nat) (hcap : 1 ≤ cap) (hy : y ≤ cap) :
    ∀ x acc, Reaches cap
      { ops := [WriteOp.mk true x, WriteOp.mk false y], exited := false,
        outBuf := 0, errBuf := 0, outRead := acc, errRead := 0,
        phase := .outDrain }
      (.completed (acc + x) y) := by
  intro x
  induction x using Nat.strong_induction_on with
  | _ x ih =>
      intro acc
      have hcap0 : ¬(cap = 0) := by omega
      have hpos : 0 < cap := hcap
      rcases Nat.eq_zero_or_pos x with hx0 | hx0
      · -- zero-byte stdout write: completes without buffering anything
        subst hx0
        apply reaches_child cap _
          { ops := [WriteOp.mk false y], exited := false, outBuf := 0,
            errBuf := 0, outRead := acc, errRead := 0, phase := .outDrain }
          _ (by simp) (by rfl)
          (by simp [stepChild, hcap0])
        have h := reaches_err_phase cap y acc hcap hy
        simpa using h
      · rcases le_or_lt x cap with hxc | hxc
        · -- the whole stdout write fits: buffer it, parent reads it
          apply reaches_child cap _
            { ops := [WriteOp.mk false y], exited := false, outBuf := x,
              errBuf := 0, outRead := acc, errRead := 0, phase := .outDrain }
            _ (by simp) (by rfl)
            (by simp [stepChild, hcap0, Nat.min_eq_left hxc, hxc])
          apply reaches_parent cap _
            { ops := [WriteOp.mk false y], exited := false, outBuf := 0,
              errBuf := 0, outRead := acc + x, errRead := 0,
              phase := .outDrain }
            _ (by simp) (by simp [stepParent, hx0])
          exact reaches_err_phase cap y (acc + x) hcap hy
        · -- the write exceeds the capacity: transfer cap bytes, read them,
          -- continue with the remainder
          apply reaches_child cap _
            { ops := [WriteOp.mk true (x - cap), WriteOp.mk false y],
              exited := false, outBuf := cap, errBuf := 0, outRead := acc,
              errRead := 0, phase := .outDrain }
            _ (by simp) (by rfl)
            (by
              have hnot : ¬(x ≤ cap) := by omega
              simp [stepChild, hcap0, Nat.min_eq_right (le_of_lt hxc), hnot])
          apply reaches_parent cap _
            { ops := [WriteOp.mk true (x - cap), WriteOp.mk false y],
              exited := false, outBuf := 0, errBuf := 0, outRead := acc + cap,
              errRead := 0, phase := .outDrain }
            _ (by simp) (by simp [stepParent, hpos])
          have h := ih (x - cap) (by omega) (acc + cap)
          have he : acc + cap + (x - cap) = acc + x := by omega
          rw [he] at h
          exact h

/-- Claim C3, counterexample. Against a pipe buffer of 2 bytes, a child
that writes 3 bytes to each stream before exiting (more than the
capacity on both) deadlocks against the sequential drain of the code: the
parent blocks in `read` on the stdout pipe, whose end-of-stream cannot
arrive while the child is blocked writing stderr into a full buffer no
one is reading.  Both write orders deadlock, so the drain does not
complete and the captured bytes never equal the bytes written. -/
theorem drain_deadlock_cex :
    runSim 2 20 (initSim [WriteOp.mk true 3, WriteOp.mk false 3]) =
      .deadlock ∧
    runSim 2 20 (initSim [WriteOp.mk false 3, WriteOp.mk true 3]) =
      .deadlock := by
  refine ⟨by decide, by decide⟩

/-- Claim C3, amended. The two drains serialize: stderr is read only
after the stdout drain observes end-of-stream, which requires the child
to have exited.  Consequently a child whose total stderr output exceeds
the pipe buffer capacity deadlocks against the drain, while a child that
writes any number of bytes to stdout and at most the buffer capacity to
stderr completes, with the captured byte count on each stream equal to
the bytes written. -/
theorem drain_serializes_amended (cap x y : Nat) (hcap : 1 ≤ cap)
    (hy : y ≤ cap) :
    Reaches cap (initSim [WriteOp.mk true x, WriteOp.mk false y])
      (.completed x y) := by
  have h := reaches_out_phase cap y hcap hy x 0
  simpa [initSim] using h

/-- Concrete instantiation of `drain_serializes_amended`: capacity 2,
3 stdout bytes, 2 stderr bytes. -/
theorem drain_serializes_amended_witness :
    (1 ≤ 2 ∧ 2 ≤ 2) ∧
    Reaches 2 (initSim [WriteOp.mk true 3, WriteOp.mk false 2])
      (.completed 3 2) :=
  ⟨⟨by decide, by decide⟩,
    drain_serializes_amended 2 3 2 (by decide) (by decide)⟩


end ProcessModule
